import Mathlib

/-!
Shallow embedding of `src/statistics.hpp` (namespace `mally::statlib`), a
small numeric library computing descriptive and bivariate statistics over
finite sequences of numbers.

Modelling conventions:
* `HighPrecisionFloat` (C++ `long double`) is modelled as `ℝ` with exact
  arithmetic; input sequences are `List ℝ` (every element already widened
  by `toHPF`, which is the identity on the accumulator type).
* `std::expected<HighPrecisionFloat, std::string>` is modelled as
  `Except StatError ℝ`, where `StatError` has one constructor per
  `std::unexpected(std::format(...))` construction site in the source,
  carrying exactly the numeric payloads interpolated into that format
  string.  Distinct format strings are distinct constructors, so equality
  of `StatError` values models equality of the diagnostic strings.
* `std::sqrt` on the extended-precision type is modelled by `Real.sqrt`.
-/

namespace statlib

/-- Failure diagnostics.  Each constructor corresponds to one
`std::unexpected(std::format(...))` site in `statistics.hpp`, with the
payloads that the format string interpolates. -/
inductive StatError where
  /-- Source `sumProduct`: "rangeX.size() = {} != rangeY.size() = {}" -/
  | sumProductSizeMismatch (sizeX sizeY : ℕ)
  /-- Source `sumProduct`: "rangeX is empty!" -/
  | sumProductEmptyRange
  /-- Source `sumProduct`: "total {} is negative!" -/
  | sumProductNegativeTotal (total : ℝ)
  /-- Source `rawDeviationDenominatorPart`: "{} * {} - {}^2={}" with payloads
  `n`, `sumSquared`, `sum`, `radicand`. -/
  | negativeRadicand (n : ℕ) (sumSquared sum radicand : ℝ)
  /-- Source `coefficientCorrelation`: "sizeX={} != sizeY()={}" -/
  | corrSizeMismatch (sizeX sizeY : ℕ)
  /-- Source `coefficientCorrelation`: "not enough data points: n={}" -/
  | corrNotEnoughData (n : ℕ)
  /-- Source `coefficientCorrelation`: "denominator is zero?" -/
  | corrDenominatorZero
  /-- Source `covariance`: "sizeX={} != sizeY={}" -/
  | covSizeMismatch (sizeX sizeY : ℕ)
  /-- Source `covariance`: "not enough data points: n={}" -/
  | covNotEnoughData (n : ℕ)

/-- C++ `using HighPrecisionFloat = long double`, modelled exactly. -/
abbrev HighPrecisionFloat := ℝ

/-- C++ `using HighPrecisionResult = std::expected<HighPrecisionFloat, std::string>`. -/
abbrev HighPrecisionResult := Except StatError HighPrecisionFloat

/-- Source `sum`: `std::accumulate(begin, end, 0.0L, [](acc, val) { return acc + toHPF(val); })`. -/
noncomputable def sum (range : List HighPrecisionFloat) : HighPrecisionFloat :=
  range.foldl (fun acc val => acc + val) 0

/-- Source `average`: returns `0` for an empty range, else `sum range / range.size()`. -/
noncomputable def average (range : List HighPrecisionFloat) : HighPrecisionFloat :=
  if range.length = 0 then 0
  else sum range / (range.length : ℝ)

/-- Source `product`: `std::accumulate(begin, end, 1.0L, [](acc, val) { return acc * toHPF(val); })`. -/
noncomputable def product (range : List HighPrecisionFloat) : HighPrecisionFloat :=
  range.foldl (fun acc val => acc * val) 1

/-- Source `geometricMean`: returns `0` for an empty range, else
`powl(product range, 1.0 / range.size())`, modelled with `Real.rpow`. -/
noncomputable def geometricMean (range : List HighPrecisionFloat) : HighPrecisionFloat :=
  if range.length = 0 then 0
  else (product range) ^ ((1 : ℝ) / (range.length : ℝ))

/-- Source `sumSquared`: accumulates `acc + toHPF(val) * toHPF(val)` from `0.0L`. -/
noncomputable def sumSquared (range : List HighPrecisionFloat) : HighPrecisionFloat :=
  range.foldl (fun acc val => acc + val * val) 0

/-- The `std::transform_reduce` total inside `sumProduct`: elementwise
multiply-accumulate over the two (equal-length) ranges, seeded at `0.0L`. -/
noncomputable def sumProductTotal (rangeX rangeY : List HighPrecisionFloat) :
    HighPrecisionFloat :=
  (rangeX.zip rangeY).foldl (fun acc p => acc + p.1 * p.2) 0

/-- Source `sumProduct`: checks equal sizes, then non-emptiness of `rangeX`, then
computes the transform-reduce total and rejects a negative total. -/
noncomputable def sumProduct (rangeX rangeY : List HighPrecisionFloat) :
    HighPrecisionResult :=
  if rangeX.length ≠ rangeY.length then
    .error (.sumProductSizeMismatch rangeX.length rangeY.length)
  else if rangeX.isEmpty then
    .error .sumProductEmptyRange
  else
    let total := sumProductTotal rangeX rangeY
    if total < 0 then
      .error (.sumProductNegativeTotal total)
    else
      .ok total

/-- The radicand `n * sumSquared - sum * sum` computed inside
`rawDeviationDenominatorPart`. -/
noncomputable def rawRadicand (sum sumSquared : HighPrecisionFloat) (n : ℕ) :
    HighPrecisionFloat :=
  (n : ℝ) * sumSquared - sum * sum

/-- Source `rawDeviationDenominatorPart(sum, sumSquared, n)`: fails on a negative
radicand `n * sumSquared - sum^2`, else returns its square root. -/
noncomputable def rawDeviationDenominatorPart
    (sum sumSquared : HighPrecisionFloat) (n : ℕ) : HighPrecisionResult :=
  let radicand := rawRadicand sum sumSquared n
  if radicand < 0 then
    .error (.negativeRadicand n sumSquared sum radicand)
  else
    .ok (Real.sqrt radicand)

/-- Source `coefficientCorrelation(range_x, range_y)`: raw-score Pearson
correlation, mirroring the validation and computation order of the source:
size check, `n < 2` check, sums, `sumProduct`, the two denominator parts,
zero-denominator check, final quotient. -/
noncomputable def coefficientCorrelation
    (range_x range_y : List HighPrecisionFloat) : HighPrecisionResult :=
  let sizeX := range_x.length
  let sizeY := range_y.length
  if sizeX ≠ sizeY then
    .error (.corrSizeMismatch sizeX sizeY)
  else if sizeX < 2 then
    .error (.corrNotEnoughData sizeX)
  else
    let sigma_x := sum range_x
    let sigma_y := sum range_y
    let sigma_x2 := sumSquared range_x
    let sigma_y2 := sumSquared range_y
    match sumProduct range_x range_y with
    | .error e => .error e
    | .ok sigma_xy =>
      let n : ℝ := (range_x.length : ℝ)
      let numerator := n * sigma_xy - sigma_x * sigma_y
      match rawDeviationDenominatorPart sigma_x sigma_x2 range_x.length with
      | .error e => .error e
      | .ok denominator_x =>
        match rawDeviationDenominatorPart sigma_y sigma_y2 range_x.length with
        | .error e => .error e
        | .ok denominator_y =>
          let denominator := denominator_x * denominator_y
          if denominator = 0 then
            .error .corrDenominatorZero
          else
            .ok (numerator / denominator)

/-- Source `covariance(range_x, range_y)`: sample covariance with Bessel's
correction, mirroring the source: size check, `n < 2` check, sums,
`sumProduct`, then `(Σxy - ΣxΣy/n) / (n - 1)` (the `n - 1` is computed in
integer arithmetic before widening, exactly as `toHPF(n - 1)`). -/
noncomputable def covariance
    (range_x range_y : List HighPrecisionFloat) : HighPrecisionResult :=
  let sizeX := range_x.length
  let sizeY := range_y.length
  if sizeX ≠ sizeY then
    .error (.covSizeMismatch sizeX sizeY)
  else if sizeX < 2 then
    .error (.covNotEnoughData sizeX)
  else
    let sigma_x := sum range_x
    let sigma_y := sum range_y
    match sumProduct range_x range_y with
    | .error e => .error e
    | .ok sigma_xy =>
      let numerator := sigma_xy - (sigma_x * sigma_y) / (sizeX : ℝ)
      let denominator : ℝ := ((sizeX - 1 : ℕ) : ℝ)
      .ok (numerator / denominator)

/-- A sequence is constant (degenerate, zero variance) when all its
elements are equal. -/
def allEqual (l : List HighPrecisionFloat) : Prop :=
  ∀ a ∈ l, ∀ b ∈ l, a = b

/-! ### Bridging lemmas: accumulator folds as list sums and `Fin`-indexed sums -/

lemma foldl_add_map {α : Type*} (f : α → ℝ) (l : List α) (c : ℝ) :
    l.foldl (fun acc v => acc + f v) c = c + (l.map f).sum := by
  induction l generalizing c with
  | nil => simp
  | cons a t ih => simp [ih]; ring

lemma sum_eq_list_sum (l : List ℝ) : sum l = l.sum := by
  simpa using foldl_add_map (fun v : ℝ => v) l 0

lemma sumSquared_eq_list_sum (l : List ℝ) :
    sumSquared l = (l.map fun v => v * v).sum := by
  simpa [sumSquared] using foldl_add_map (fun v : ℝ => v * v) l 0

lemma sumProductTotal_eq_list_sum (x y : List ℝ) :
    sumProductTotal x y = ((x.zip y).map fun p => p.1 * p.2).sum := by
  simpa [sumProductTotal] using
    foldl_add_map (fun p : ℝ × ℝ => p.1 * p.2) (x.zip y) 0

lemma list_map_sum_fin {α : Type*} (f : α → ℝ) (l : List α) :
    (l.map f).sum = ∑ i : Fin l.length, f (l.get i) := by
  conv_lhs => rw [← List.ofFn_get l]
  rw [List.map_ofFn, List.sum_ofFn]
  rfl

lemma sum_eq_fin (l : List ℝ) : sum l = ∑ i : Fin l.length, l.get i := by
  rw [sum_eq_list_sum]
  conv_lhs => rw [← List.ofFn_get l]
  rw [List.sum_ofFn]

lemma sumSquared_eq_fin (l : List ℝ) :
    sumSquared l = ∑ i : Fin l.length, l.get i * l.get i := by
  rw [sumSquared_eq_list_sum, list_map_sum_fin]

lemma sumProductTotal_eq_fin (x y : List ℝ) :
    sumProductTotal x y
      = ∑ i : Fin (x.zip y).length,
          ((x.zip y).get i).1 * ((x.zip y).get i).2 := by
  rw [sumProductTotal_eq_list_sum, list_map_sum_fin]

lemma zip_fst_map_sum (f : ℝ → ℝ) (x y : List ℝ) (h : x.length = y.length) :
    (x.map f).sum = ∑ i : Fin (x.zip y).length, f ((x.zip y).get i).1 := by
  conv_lhs => rw [← List.map_fst_zip x y h.le, List.map_map]
  rw [list_map_sum_fin]
  rfl

lemma zip_snd_map_sum (f : ℝ → ℝ) (x y : List ℝ) (h : x.length = y.length) :
    (y.map f).sum = ∑ i : Fin (x.zip y).length, f ((x.zip y).get i).2 := by
  conv_lhs => rw [← List.map_snd_zip x y h.ge, List.map_map]
  rw [list_map_sum_fin]
  rfl

lemma sum_eq_fin_zip_fst (x y : List ℝ) (h : x.length = y.length) :
    sum x = ∑ i : Fin (x.zip y).length, ((x.zip y).get i).1 := by
  have hz := zip_fst_map_sum (fun v => v) x y h
  simpa [sum_eq_list_sum] using hz

lemma sum_eq_fin_zip_snd (x y : List ℝ) (h : x.length = y.length) :
    sum y = ∑ i : Fin (x.zip y).length, ((x.zip y).get i).2 := by
  have hz := zip_snd_map_sum (fun v => v) x y h
  simpa [sum_eq_list_sum] using hz

lemma sumSquared_eq_fin_zip_fst (x y : List ℝ) (h : x.length = y.length) :
    sumSquared x
      = ∑ i : Fin (x.zip y).length,
          ((x.zip y).get i).1 * ((x.zip y).get i).1 := by
  have hz := zip_fst_map_sum (fun v => v * v) x y h
  rw [sumSquared_eq_list_sum, hz]

lemma sumSquared_eq_fin_zip_snd (x y : List ℝ) (h : x.length = y.length) :
    sumSquared y
      = ∑ i : Fin (x.zip y).length,
          ((x.zip y).get i).2 * ((x.zip y).get i).2 := by
  have hz := zip_snd_map_sum (fun v => v * v) x y h
  rw [sumSquared_eq_list_sum, hz]

lemma length_zip_of_eq (x y : List ℝ) (h : x.length = y.length) :
    (x.zip y).length = x.length := by
  rw [List.length_zip, h, min_self]

/-! ### Algebraic facts about `n·Σx² − (Σx)²` and the raw-score numerator -/

lemma fin_pairdiff (n : ℕ) (f : Fin n → ℝ) :
    ∑ i, ∑ j, (f i - f j) * (f i - f j)
      = 2 * ((n : ℝ) * (∑ i, f i * f i) - (∑ i, f i) * (∑ i, f i)) := by
  have expand : ∀ i : Fin n, ∑ j, (f i - f j) * (f i - f j)
      = (n : ℝ) * (f i * f i) - 2 * (f i * ∑ j, f j) + ∑ j, f j * f j := by
    intro i
    have hterm : ∀ j : Fin n, (f i - f j) * (f i - f j)
        = f i * f i - 2 * (f i * f j) + f j * f j := fun j => by ring
    rw [Finset.sum_congr rfl fun j _ => hterm j, Finset.sum_add_distrib,
      Finset.sum_sub_distrib, Finset.sum_const, Finset.card_univ,
      Fintype.card_fin, ← Finset.mul_sum, ← Finset.mul_sum, nsmul_eq_mul]
  rw [Finset.sum_congr rfl fun i _ => expand i, Finset.sum_add_distrib,
    Finset.sum_sub_distrib, Finset.sum_const, Finset.card_univ,
    Fintype.card_fin, nsmul_eq_mul, ← Finset.mul_sum, ← Finset.mul_sum,
    ← Finset.sum_mul]
  ring

lemma fin_radicand_nonneg (n : ℕ) (f : Fin n → ℝ) :
    0 ≤ (n : ℝ) * (∑ i, f i * f i) - (∑ i, f i) * (∑ i, f i) := by
  have h := fin_pairdiff n f
  have hpos : 0 ≤ ∑ i : Fin n, ∑ j : Fin n, (f i - f j) * (f i - f j) :=
    Finset.sum_nonneg fun i _ => Finset.sum_nonneg fun j _ => mul_self_nonneg _
  linarith

lemma fin_radicand_eq_zero_iff (n : ℕ) (f : Fin n → ℝ) :
    (n : ℝ) * (∑ i, f i * f i) - (∑ i, f i) * (∑ i, f i) = 0
      ↔ ∀ i j, f i = f j := by
  constructor
  · intro h0
    have hzero : ∑ i : Fin n, ∑ j : Fin n, (f i - f j) * (f i - f j) = 0 := by
      rw [fin_pairdiff, h0]; ring
    intro i j
    have hinner : ∀ i : Fin n, 0 ≤ ∑ j : Fin n, (f i - f j) * (f i - f j) :=
      fun i => Finset.sum_nonneg fun j _ => mul_self_nonneg _
    have hrow : ∑ j : Fin n, (f i - f j) * (f i - f j) = 0 :=
      (Finset.sum_eq_zero_iff_of_nonneg fun i _ => hinner i).1 hzero i
        (Finset.mem_univ i)
    have hcell : (f i - f j) * (f i - f j) = 0 :=
      (Finset.sum_eq_zero_iff_of_nonneg fun j _ => mul_self_nonneg _).1 hrow j
        (Finset.mem_univ j)
    have := mul_self_eq_zero.1 hcell
    linarith
  · intro hall
    have hzero : ∑ i : Fin n, ∑ j : Fin n, (f i - f j) * (f i - f j) = 0 :=
      Finset.sum_eq_zero fun i _ => Finset.sum_eq_zero fun j _ => by
        rw [hall i j]; ring
    have h := fin_pairdiff n f
    linarith

lemma fin_sum_linear_expand (n : ℕ) (f g : Fin n → ℝ) :
    ∑ i, ((n : ℝ) * f i - ∑ j, f j) * ((n : ℝ) * g i - ∑ j, g j)
      = (n : ℝ) * ((n : ℝ) * (∑ i, f i * g i) - (∑ i, f i) * (∑ i, g i)) := by
  have hterm : ∀ i : Fin n, ((n : ℝ) * f i - ∑ j, f j) * ((n : ℝ) * g i - ∑ j, g j)
      = (n : ℝ) ^ 2 * (f i * g i) - ((n : ℝ) * ∑ j, g j) * f i
        - ((n : ℝ) * ∑ j, f j) * g i + (∑ j, f j) * ∑ j, g j := fun i => by ring
  rw [Finset.sum_congr rfl fun i _ => hterm i, Finset.sum_add_distrib,
    Finset.sum_sub_distrib, Finset.sum_sub_distrib, Finset.sum_const,
    Finset.card_univ, Fintype.card_fin, nsmul_eq_mul, ← Finset.mul_sum,
    ← Finset.mul_sum, ← Finset.mul_sum]
  ring

lemma fin_centered_cs (n : ℕ) (f g : Fin n → ℝ) :
    ((n : ℝ) * (∑ i, f i * g i) - (∑ i, f i) * (∑ i, g i)) ^ 2
      ≤ ((n : ℝ) * (∑ i, f i * f i) - (∑ i, f i) * (∑ i, f i))
        * ((n : ℝ) * (∑ i, g i * g i) - (∑ i, g i) * (∑ i, g i)) := by
  rcases Nat.eq_zero_or_pos n with hn | hn
  · subst hn; simp
  · have key := Finset.sum_mul_sq_le_sq_mul_sq Finset.univ
      (fun i : Fin n => (n : ℝ) * f i - ∑ j, f j)
      (fun i : Fin n => (n : ℝ) * g i - ∑ j, g j)
    have efg := fin_sum_linear_expand n f g
    have eff := fin_sum_linear_expand n f f
    have egg := fin_sum_linear_expand n g g
    have hsqf : ∑ i : Fin n, ((n : ℝ) * f i - ∑ j, f j) ^ 2
        = ∑ i : Fin n, ((n : ℝ) * f i - ∑ j, f j) * ((n : ℝ) * f i - ∑ j, f j) :=
      Finset.sum_congr rfl fun i _ => by ring
    have hsqg : ∑ i : Fin n, ((n : ℝ) * g i - ∑ j, g j) ^ 2
        = ∑ i : Fin n, ((n : ℝ) * g i - ∑ j, g j) * ((n : ℝ) * g i - ∑ j, g j) :=
      Finset.sum_congr rfl fun i _ => by ring
    rw [hsqf, hsqg, efg, eff, egg] at key
    have hnpos : (0 : ℝ) < (n : ℝ) := by exact_mod_cast hn
    revert key
    generalize (n : ℝ) * (∑ i, f i * g i) - (∑ i, f i) * (∑ i, g i) = X
    generalize (n : ℝ) * (∑ i, f i * f i) - (∑ i, f i) * (∑ i, f i) = Y
    generalize (n : ℝ) * (∑ i, g i * g i) - (∑ i, g i) * (∑ i, g i) = Z
    intro key
    have hn2 : (0 : ℝ) < (n : ℝ) ^ 2 := by positivity
    have e1 : ((n : ℝ) * X) ^ 2 = (n : ℝ) ^ 2 * X ^ 2 := by ring
    have e2 : (n : ℝ) * Y * ((n : ℝ) * Z) = (n : ℝ) ^ 2 * (Y * Z) := by ring
    rw [e1, e2] at key
    exact le_of_mul_le_mul_left key hn2

/-! ### Radicand facts specialised to a list's own sums -/

lemma rawRadicand_list_nonneg (l : List ℝ) :
    0 ≤ rawRadicand (sum l) (sumSquared l) l.length := by
  rw [rawRadicand, sum_eq_fin, sumSquared_eq_fin]
  exact fin_radicand_nonneg l.length l.get

lemma rawRadicand_list_eq_zero_iff (l : List ℝ) :
    rawRadicand (sum l) (sumSquared l) l.length = 0 ↔ allEqual l := by
  rw [rawRadicand, sum_eq_fin, sumSquared_eq_fin, fin_radicand_eq_zero_iff]
  constructor
  · intro hij a ha b hb
    obtain ⟨i, rfl⟩ := List.mem_iff_get.1 ha
    obtain ⟨j, rfl⟩ := List.mem_iff_get.1 hb
    exact hij i j
  · intro hall i j
    exact hall _ (l.get_mem i.1 i.2) _ (l.get_mem j.1 j.2)

/-! ### Branch lemmas for the validated operations -/

lemma sumProduct_of_ne (x y : List ℝ) (h : x.length ≠ y.length) :
    sumProduct x y = .error (.sumProductSizeMismatch x.length y.length) := by
  simp [sumProduct, h]

lemma sumProduct_of_nil (x y : List ℝ) (h : x.length = y.length) (hx : x = []) :
    sumProduct x y = .error .sumProductEmptyRange := by
  subst hx
  simp [sumProduct, ← h]

lemma sumProduct_of_neg (x y : List ℝ) (h : x.length = y.length) (hx : x ≠ [])
    (hneg : sumProductTotal x y < 0) :
    sumProduct x y = .error (.sumProductNegativeTotal (sumProductTotal x y)) := by
  simp [sumProduct, h, hx, hneg]

lemma sumProduct_of_nonneg (x y : List ℝ) (h : x.length = y.length) (hx : x ≠ [])
    (hpos : 0 ≤ sumProductTotal x y) :
    sumProduct x y = .ok (sumProductTotal x y) := by
  simp [sumProduct, h, hx, not_lt.2 hpos]

lemma sumProduct_ok_iff (x y : List ℝ) (v : ℝ) :
    sumProduct x y = .ok v
      ↔ x.length = y.length ∧ x ≠ [] ∧ 0 ≤ sumProductTotal x y
        ∧ v = sumProductTotal x y := by
  constructor
  · intro hok
    by_cases h : x.length = y.length
    · by_cases hx : x = []
      · rw [sumProduct_of_nil x y h hx] at hok; simp at hok
      · by_cases hneg : sumProductTotal x y < 0
        · rw [sumProduct_of_neg x y h hx hneg] at hok; simp at hok
        · rw [sumProduct_of_nonneg x y h hx (not_lt.1 hneg)] at hok
          exact ⟨h, hx, not_lt.1 hneg, (Except.ok.inj hok).symm⟩
    · rw [sumProduct_of_ne x y h] at hok; simp at hok
  · rintro ⟨h, hx, hpos, rfl⟩
    exact sumProduct_of_nonneg x y h hx hpos

lemma rawDev_of_neg (s s2 : ℝ) (n : ℕ) (h : rawRadicand s s2 n < 0) :
    rawDeviationDenominatorPart s s2 n
      = .error (.negativeRadicand n s2 s (rawRadicand s s2 n)) := by
  simp [rawDeviationDenominatorPart, h]

lemma rawDev_of_nonneg (s s2 : ℝ) (n : ℕ) (h : 0 ≤ rawRadicand s s2 n) :
    rawDeviationDenominatorPart s s2 n
      = .ok (Real.sqrt (rawRadicand s s2 n)) := by
  simp [rawDeviationDenominatorPart, not_lt.2 h]

lemma rawDev_list (l : List ℝ) :
    rawDeviationDenominatorPart (sum l) (sumSquared l) l.length
      = .ok (Real.sqrt (rawRadicand (sum l) (sumSquared l) l.length)) :=
  rawDev_of_nonneg _ _ _ (rawRadicand_list_nonneg l)

lemma covariance_eq_of_checks (x y : List ℝ) (h : x.length = y.length)
    (hn : 2 ≤ x.length) :
    covariance x y =
      match sumProduct x y with
      | .error e => .error e
      | .ok sigma_xy =>
        .ok ((sigma_xy - (sum x * sum y) / (x.length : ℝ))
              / ((x.length - 1 : ℕ) : ℝ)) := by
  simp only [covariance]
  rw [if_neg (by omega), if_neg (by omega)]

lemma corr_eq_of_checks (x y : List ℝ) (h : x.length = y.length)
    (hn : 2 ≤ x.length) :
    coefficientCorrelation x y =
      match sumProduct x y with
      | .error e => .error e
      | .ok sigma_xy =>
        match rawDeviationDenominatorPart (sum x) (sumSquared x) x.length with
        | .error e => .error e
        | .ok denominator_x =>
          match rawDeviationDenominatorPart (sum y) (sumSquared y) x.length with
          | .error e => .error e
          | .ok denominator_y =>
            if denominator_x * denominator_y = 0 then
              .error .corrDenominatorZero
            else
              .ok (((x.length : ℝ) * sigma_xy - sum x * sum y)
                    / (denominator_x * denominator_y)) := by
  simp only [coefficientCorrelation]
  rw [if_neg (by omega), if_neg (by omega)]

lemma corr_of_ne (x y : List ℝ) (h : x.length ≠ y.length) :
    coefficientCorrelation x y
      = .error (.corrSizeMismatch x.length y.length) := by
  simp [coefficientCorrelation, h]

lemma corr_of_small (x y : List ℝ) (h : x.length = y.length)
    (hn : x.length < 2) :
    coefficientCorrelation x y = .error (.corrNotEnoughData x.length) := by
  simp only [coefficientCorrelation]
  rw [if_neg (by omega), if_pos (by omega)]

lemma corr_of_spError (x y : List ℝ) (e : StatError) (h : x.length = y.length)
    (hn : 2 ≤ x.length) (hsp : sumProduct x y = .error e) :
    coefficientCorrelation x y = .error e := by
  rw [corr_eq_of_checks x y h hn]
  simp [hsp]

lemma covariance_of_ne (x y : List ℝ) (h : x.length ≠ y.length) :
    covariance x y = .error (.covSizeMismatch x.length y.length) := by
  simp [covariance, h]

lemma covariance_of_small (x y : List ℝ) (h : x.length = y.length)
    (hn : x.length < 2) :
    covariance x y = .error (.covNotEnoughData x.length) := by
  simp only [covariance]
  rw [if_neg (by omega), if_pos (by omega)]

lemma covariance_of_spError (x y : List ℝ) (e : StatError)
    (h : x.length = y.length) (hn : 2 ≤ x.length)
    (hsp : sumProduct x y = .error e) :
    covariance x y = .error e := by
  rw [covariance_eq_of_checks x y h hn]
  simp [hsp]

lemma covariance_of_spOk (x y : List ℝ) (s : ℝ) (h : x.length = y.length)
    (hn : 2 ≤ x.length) (hsp : sumProduct x y = .ok s) :
    covariance x y
      = .ok ((s - (sum x * sum y) / (x.length : ℝ))
              / ((x.length - 1 : ℕ) : ℝ)) := by
  rw [covariance_eq_of_checks x y h hn]
  simp [hsp]

lemma corr_eq_full (x y : List ℝ) (s : ℝ) (h : x.length = y.length)
    (hn : 2 ≤ x.length) (hsp : sumProduct x y = .ok s) :
    coefficientCorrelation x y =
      if Real.sqrt (rawRadicand (sum x) (sumSquared x) x.length)
          * Real.sqrt (rawRadicand (sum y) (sumSquared y) y.length) = 0 then
        .error .corrDenominatorZero
      else
        .ok (((x.length : ℝ) * s - sum x * sum y)
              / (Real.sqrt (rawRadicand (sum x) (sumSquared x) x.length)
                  * Real.sqrt (rawRadicand (sum y) (sumSquared y) y.length))) := by
  have h2 : rawDeviationDenominatorPart (sum y) (sumSquared y) x.length
      = .ok (Real.sqrt (rawRadicand (sum y) (sumSquared y) y.length)) := by
    rw [h]; exact rawDev_list y
  rw [corr_eq_of_checks x y h hn]
  simp only [hsp, rawDev_list x, h2]

/-! ### Symmetry of the paired accumulator -/

lemma sumProductTotal_comm (x y : List ℝ) :
    sumProductTotal y x = sumProductTotal x y := by
  rw [sumProductTotal_eq_list_sum, sumProductTotal_eq_list_sum,
    ← List.zip_swap x y, List.map_map,
    show ((fun p : ℝ × ℝ => p.1 * p.2) ∘ Prod.swap)
        = (fun p : ℝ × ℝ => p.1 * p.2) from funext fun p => mul_comm p.2 p.1]

/-! ### Inversion of successful composite results -/

lemma covariance_ok_inv (x y : List ℝ) (v : ℝ) (hok : covariance x y = .ok v) :
    x.length = y.length ∧ 2 ≤ x.length ∧ x ≠ [] ∧ 0 ≤ sumProductTotal x y
      ∧ v = (sumProductTotal x y - (sum x * sum y) / (x.length : ℝ))
              / ((x.length - 1 : ℕ) : ℝ) := by
  by_cases h : x.length = y.length
  · by_cases hn : 2 ≤ x.length
    · rcases hspc : sumProduct x y with e | s
      · rw [covariance_of_spError x y e h hn hspc] at hok; simp at hok
      · obtain ⟨-, hx, hpos, rfl⟩ := (sumProduct_ok_iff x y s).1 hspc
        rw [covariance_of_spOk x y _ h hn hspc] at hok
        exact ⟨h, hn, hx, hpos, (Except.ok.inj hok).symm⟩
    · rw [covariance_of_small x y h (by omega)] at hok; simp at hok
  · rw [covariance_of_ne x y h] at hok; simp at hok

lemma corr_ok_inv (x y : List ℝ) (r : ℝ)
    (hok : coefficientCorrelation x y = .ok r) :
    x.length = y.length ∧ 2 ≤ x.length ∧ x ≠ [] ∧ 0 ≤ sumProductTotal x y
      ∧ Real.sqrt (rawRadicand (sum x) (sumSquared x) x.length)
          * Real.sqrt (rawRadicand (sum y) (sumSquared y) y.length) ≠ 0
      ∧ r = ((x.length : ℝ) * sumProductTotal x y - sum x * sum y)
              / (Real.sqrt (rawRadicand (sum x) (sumSquared x) x.length)
                  * Real.sqrt (rawRadicand (sum y) (sumSquared y) y.length)) := by
  by_cases h : x.length = y.length
  · by_cases hn : 2 ≤ x.length
    · rcases hspc : sumProduct x y with e | s
      · rw [corr_of_spError x y e h hn hspc] at hok; simp at hok
      · obtain ⟨-, hx, hpos, rfl⟩ := (sumProduct_ok_iff x y s).1 hspc
        rw [corr_eq_full x y _ h hn hspc] at hok
        by_cases hd : Real.sqrt (rawRadicand (sum x) (sumSquared x) x.length)
            * Real.sqrt (rawRadicand (sum y) (sumSquared y) y.length) = 0
        · rw [if_pos hd] at hok; simp at hok
        · rw [if_neg hd] at hok
          exact ⟨h, hn, hx, hpos, hd, (Except.ok.inj hok).symm⟩
    · rw [corr_of_small x y h (by omega)] at hok; simp at hok
  · rw [corr_of_ne x y h] at hok; simp at hok

/-! ### Cauchy–Schwarz for the raw-score numerator, at the list level -/

lemma numerator_sq_le (x y : List ℝ) (h : x.length = y.length) :
    ((x.length : ℝ) * sumProductTotal x y - sum x * sum y) ^ 2
      ≤ rawRadicand (sum x) (sumSquared x) x.length
        * rawRadicand (sum y) (sumSquared y) y.length := by
  have hz : (x.zip y).length = x.length := length_zip_of_eq x y h
  have cs := fin_centered_cs (x.zip y).length
      (fun i => ((x.zip y).get i).1) (fun i => ((x.zip y).get i).2)
  rw [rawRadicand, rawRadicand,
    sum_eq_fin_zip_fst x y h, sum_eq_fin_zip_snd x y h,
    sumSquared_eq_fin_zip_fst x y h, sumSquared_eq_fin_zip_snd x y h,
    sumProductTotal_eq_fin, ← h, ← hz]
  exact cs

lemma ratio_abs_le (num Rx Ry : ℝ) (hRx0 : 0 ≤ Rx) (hRy0 : 0 ≤ Ry)
    (hcs : num ^ 2 ≤ Rx * Ry) (hd : Real.sqrt Rx * Real.sqrt Ry ≠ 0) :
    |num / (Real.sqrt Rx * Real.sqrt Ry)| ≤ 1 := by
  have hden0 : 0 ≤ Real.sqrt Rx * Real.sqrt Ry :=
    mul_nonneg (Real.sqrt_nonneg _) (Real.sqrt_nonneg _)
  have hdenpos : 0 < Real.sqrt Rx * Real.sqrt Ry := lt_of_le_of_ne hden0 (Ne.symm hd)
  have hsq : (Real.sqrt Rx * Real.sqrt Ry) ^ 2 = Rx * Ry := by
    rw [mul_pow, Real.sq_sqrt hRx0, Real.sq_sqrt hRy0]
  have habs : |num| ≤ Real.sqrt Rx * Real.sqrt Ry := by
    have h1 : |num| = Real.sqrt (num ^ 2) := (Real.sqrt_sq_eq_abs num).symm
    have h2 : Real.sqrt Rx * Real.sqrt Ry
        = Real.sqrt ((Real.sqrt Rx * Real.sqrt Ry) ^ 2) := (Real.sqrt_sq hden0).symm
    rw [h1, h2, hsq]
    exact Real.sqrt_le_sqrt hcs
  rw [abs_div, abs_of_nonneg hden0]
  exact (div_le_one hdenpos).2 habs

/-! ## The claims -/

/-- C7 (confirmed): empty-sequence conventions — `sum [] = 0`,
`product [] = 1` (the multiplicative identity, not zero), `average [] = 0`
and `geometricMean [] = 0`.  These four operations return a plain
`HighPrecisionFloat`, so they have no failure mode on the empty sequence
(or on any sequence). -/
theorem C7_empty_sequence_conventions :
    sum ([] : List ℝ) = 0 ∧ product ([] : List ℝ) = 1
      ∧ average ([] : List ℝ) = 0 ∧ geometricMean ([] : List ℝ) = 0 := by
  refine ⟨?_, ?_, ?_, ?_⟩ <;> simp [sum, product, average, geometricMean]

/-- C6 (confirmed): `rawDeviationDenominatorPart(sum, sumSquared, n)` fails,
with a diagnostic embedding the three inputs and the radicand, if and only
if `n * sumSquared - sum * sum < 0`; otherwise it returns the non-negative
square root of that radicand. -/
theorem C6_rawDeviationDenominatorPart_spec (s s2 : ℝ) (n : ℕ) :
    ((n : ℝ) * s2 - s * s < 0 →
      rawDeviationDenominatorPart s s2 n
        = .error (.negativeRadicand n s2 s ((n : ℝ) * s2 - s * s)))
    ∧ (0 ≤ (n : ℝ) * s2 - s * s →
      rawDeviationDenominatorPart s s2 n
        = .ok (Real.sqrt ((n : ℝ) * s2 - s * s))
      ∧ 0 ≤ Real.sqrt ((n : ℝ) * s2 - s * s)) :=
  ⟨fun h => rawDev_of_neg s s2 n h,
   fun h => ⟨rawDev_of_nonneg s s2 n h, Real.sqrt_nonneg _⟩⟩

/-- Witness for C6 at `sum = 3`, `sumSquared = 1`, `n = 1`: the radicand
`1*1 - 3*3 = -8` is negative and the call fails with that diagnostic. -/
theorem C6_witness :
    rawDeviationDenominatorPart 3 1 1 = .error (.negativeRadicand 1 1 3 (-8)) := by
  have h := (C6_rawDeviationDenominatorPart_spec 3 1 1).1 (by norm_num)
  norm_num at h
  exact h

/-- C10 (confirmed): whenever `sumProduct` succeeds, the returned value is
non-negative (the function rejects any negative accumulated total with a
"total is negative" failure), so no caller of `sumProduct` — including
`covariance` and `coefficientCorrelation` — can observe a negative sum of
products as a success value. -/
theorem C10_sumProduct_success_nonneg (x y : List ℝ) (v : ℝ)
    (hok : sumProduct x y = .ok v) : 0 ≤ v := by
  obtain ⟨-, -, hpos, rfl⟩ := (sumProduct_ok_iff x y v).1 hok
  exact hpos

/-- Witness for C10 at `x = [1,1]`, `y = [2,3]`: the call succeeds with
total `5`, which is non-negative. -/
theorem C10_witness :
    sumProduct [(1 : ℝ), 1] [2, 3] = .ok 5 ∧ (0 : ℝ) ≤ 5 := by
  have ht : sumProductTotal [(1 : ℝ), 1] [2, 3] = 5 := by
    simp [sumProductTotal]; norm_num
  have h : sumProduct [(1 : ℝ), 1] [2, 3] = .ok 5 := by
    rw [sumProduct_of_nonneg [(1 : ℝ), 1] [2, 3] rfl (by simp)
      (by rw [ht]; norm_num), ht]
  exact ⟨h, C10_sumProduct_success_nonneg [(1 : ℝ), 1] [2, 3] 5 h⟩

/-- C2 counterexample: `x = [2, -3]` and `y = [1, 1]` have equal length and
are non-empty, yet `sumProduct` does NOT succeed: the accumulated total
`2*1 + (-3)*1 = -1` is negative and is rejected with the "total is
negative" diagnostic, contradicting the claim that equal-length non-empty
inputs always succeed. -/
theorem C2_counterexample :
    sumProduct [(2 : ℝ), -3] [1, 1] = .error (.sumProductNegativeTotal (-1)) := by
  have ht : sumProductTotal [(2 : ℝ), -3] [1, 1] = -1 := by
    simp [sumProductTotal]; norm_num
  rw [sumProduct_of_neg [(2 : ℝ), -3] [1, 1] rfl (by simp)
    (by rw [ht]; norm_num), ht]

/-- C2 (corrected): `sumProduct(x, y)` fails iff the lengths differ (with a
diagnostic reporting both lengths), or — lengths being equal — the
sequences are empty, or the accumulated total `Σ xᵢ·yᵢ` is negative (with a
diagnostic reporting the total); for every pair of equal-length non-empty
sequences whose elementwise-product total is non-negative it succeeds and
returns that total, `Σᵢ xᵢ·yᵢ`. -/
theorem C2_sumProduct_spec (x y : List ℝ) :
    (x.length ≠ y.length →
      sumProduct x y = .error (.sumProductSizeMismatch x.length y.length))
    ∧ (x.length = y.length →
        (x = [] → sumProduct x y = .error .sumProductEmptyRange)
        ∧ (x ≠ [] → sumProductTotal x y < 0 →
            sumProduct x y
              = .error (.sumProductNegativeTotal (sumProductTotal x y)))
        ∧ (x ≠ [] → 0 ≤ sumProductTotal x y →
            sumProduct x y
              = .ok (∑ i : Fin (x.zip y).length,
                  ((x.zip y).get i).1 * ((x.zip y).get i).2))) := by
  refine ⟨sumProduct_of_ne x y, fun h =>
    ⟨sumProduct_of_nil x y h, sumProduct_of_neg x y h, fun hx hpos => ?_⟩⟩
  rw [sumProduct_of_nonneg x y h hx hpos, sumProductTotal_eq_fin]

/-- Witness for C2 at `x = [1,2]`, `y = [3,4]`: equal lengths, non-empty,
non-negative total, and the call returns `1*3 + 2*4 = 11`. -/
theorem C2_witness :
    sumProduct [(1 : ℝ), 2] [3, 4] = .ok 11 := by
  have ht : sumProductTotal [(1 : ℝ), 2] [3, 4] = 11 := by
    simp [sumProductTotal]; norm_num
  have h := ((C2_sumProduct_spec [(1 : ℝ), 2] [3, 4]).2 rfl).2.2 (by simp)
    (by rw [ht]; norm_num)
  rw [h, ← sumProductTotal_eq_fin, ht]

/-- C1 counterexample: `x = [1, -1]` and `y = [1, 2]` have equal length
`2 ≥ 2`, yet `covariance` fails — `sumProduct` rejects the negative total
`1*1 + (-1)*2 = -1` and that failure propagates — contradicting the claim
that after the length and `n ≥ 2` checks the `sumProduct` failure does not
occur. -/
theorem C1_counterexample :
    covariance [(1 : ℝ), -1] [1, 2] = .error (.sumProductNegativeTotal (-1)) := by
  have ht : sumProductTotal [(1 : ℝ), -1] [1, 2] = -1 := by
    simp [sumProductTotal]; norm_num
  have hsp : sumProduct [(1 : ℝ), -1] [1, 2]
      = .error (.sumProductNegativeTotal (-1)) := by
    rw [sumProduct_of_neg [(1 : ℝ), -1] [1, 2] rfl (by simp)
      (by rw [ht]; norm_num), ht]
  exact covariance_of_spError _ _ _ rfl (by norm_num) hsp

/-- C1 (corrected): for every pair of equal-length numeric sequences with
`n ≥ 2`, after the length check and the `n ≥ 2` check the only remaining
failure of `covariance` is the one propagated unchanged from `sumProduct`,
which occurs exactly when the accumulated total `Σ xᵢ·yᵢ` is negative; when
that total is non-negative, `covariance` succeeds (and the result may be
any real value including zero or negative). -/
theorem C1_covariance_failure_modes (x y : List ℝ) (h : x.length = y.length)
    (hn : 2 ≤ x.length) :
    (0 ≤ sumProductTotal x y → ∃ v, covariance x y = .ok v)
    ∧ (sumProductTotal x y < 0 →
        covariance x y
          = .error (.sumProductNegativeTotal (sumProductTotal x y))) := by
  have hx : x ≠ [] := by
    intro hnil; rw [hnil] at hn; simp at hn
  constructor
  · intro hpos
    exact ⟨_, covariance_of_spOk x y _ h hn (sumProduct_of_nonneg x y h hx hpos)⟩
  · intro hneg
    exact covariance_of_spError x y _ h hn (sumProduct_of_neg x y h hx hneg)

/-- Witness for C1 at `x = [0,1]`, `y = [1,1]`: total `1 ≥ 0`, and
`covariance` succeeds. -/
theorem C1_witness :
    0 ≤ sumProductTotal [(0 : ℝ), 1] [1, 1]
      ∧ ∃ v, covariance [(0 : ℝ), 1] [1, 1] = .ok v := by
  have ht : sumProductTotal [(0 : ℝ), 1] [1, 1] = 1 := by
    norm_num [sumProductTotal]
  have hpos : 0 ≤ sumProductTotal [(0 : ℝ), 1] [1, 1] := by rw [ht]; norm_num
  exact ⟨hpos,
    (C1_covariance_failure_modes [(0 : ℝ), 1] [1, 1] rfl (by norm_num)).1 hpos⟩

/-- C3 (confirmed): `coefficientCorrelation` validates in order with
short-circuiting — different lengths fail with a diagnostic embedding both
lengths (determined by the lengths alone, before any element is consumed);
equal lengths with `n < 2` fail with a diagnostic embedding `n`; only past
those checks are sums accumulated, and a failure from `sumProduct` is
returned as the final failure unchanged (a denominator-part failure would
propagate the same way, but on these inputs its radicand is non-negative,
see `rawRadicand_list_nonneg`). -/
theorem C3_coefficientCorrelation_validation (x y : List ℝ) :
    (x.length ≠ y.length →
      coefficientCorrelation x y
        = .error (.corrSizeMismatch x.length y.length))
    ∧ (x.length = y.length → x.length < 2 →
      coefficientCorrelation x y = .error (.corrNotEnoughData x.length))
    ∧ (x.length = y.length → 2 ≤ x.length →
      ∀ e, sumProduct x y = .error e →
        coefficientCorrelation x y = .error e) :=
  ⟨corr_of_ne x y, corr_of_small x y,
   fun h hn e he => corr_of_spError x y e h hn he⟩

/-- Witness for C3 at `x = [0,-5]`, `y = [1,1]`: `sumProduct` fails on the
negative total `-5` and `coefficientCorrelation` returns that very failure. -/
theorem C3_witness :
    coefficientCorrelation [(0 : ℝ), -5] [1, 1]
      = .error (.sumProductNegativeTotal (-5)) := by
  have ht : sumProductTotal [(0 : ℝ), -5] [1, 1] = -5 := by
    norm_num [sumProductTotal]
  have hsp : sumProduct [(0 : ℝ), -5] [1, 1]
      = .error (.sumProductNegativeTotal (-5)) := by
    rw [sumProduct_of_neg [(0 : ℝ), -5] [1, 1] rfl (by simp)
      (by rw [ht]; norm_num), ht]
  exact (C3_coefficientCorrelation_validation [(0 : ℝ), -5] [1, 1]).2.2 rfl
    (by norm_num) _ hsp

/-- C4 (confirmed): for every pair of equal-length sequences with `n ≥ 2` on
which `sumProduct` succeeds with value `s = Σxy`, `covariance` returns
exactly `(Σxy − ΣxΣy/n) / (n − 1)` — the sample covariance with Bessel's
correction. -/
theorem C4_covariance_formula (x y : List ℝ) (s : ℝ) (h : x.length = y.length)
    (hn : 2 ≤ x.length) (hsp : sumProduct x y = .ok s) :
    covariance x y
      = .ok ((s - sum x * sum y / (x.length : ℝ)) / ((x.length : ℝ) - 1)) := by
  rw [covariance_of_spOk x y s h hn hsp,
    Nat.cast_sub (by omega : 1 ≤ x.length), Nat.cast_one]

/-- Witness for C4 at `x = y = [1,2]`: `Σxy = 5`, `Σx = Σy = 3`, `n = 2`,
so covariance is `(5 - 9/2) / 1 = 1/2`. -/
theorem C4_witness :
    covariance [(1 : ℝ), 2] [1, 2] = .ok (1 / 2) := by
  have ht : sumProductTotal [(1 : ℝ), 2] [1, 2] = 5 := by
    simp [sumProductTotal]; norm_num
  have hsp : sumProduct [(1 : ℝ), 2] [1, 2] = .ok 5 := by
    rw [sumProduct_of_nonneg [(1 : ℝ), 2] [1, 2] rfl (by simp)
      (by rw [ht]; norm_num), ht]
  rw [C4_covariance_formula [(1 : ℝ), 2] [1, 2] 5 rfl (by norm_num) hsp]
  have hs : sum [(1 : ℝ), 2] = 3 := by simp [sum]; norm_num
  rw [hs]
  norm_num

/-- C5 (confirmed): past the shared validation (equal lengths, `n ≥ 2`,
successful `sumProduct`), `coefficientCorrelation` fails with the
"denominator is zero" diagnostic exactly when the product of the two
denominator factors is zero, which happens exactly when at least one input
series is constant (zero variance); in particular it fails on
`x = [1,1,1]`, `y = [1,2,3]` (see the witness). -/
theorem C5_correlation_degenerate_variance (x y : List ℝ) (s : ℝ)
    (h : x.length = y.length) (hn : 2 ≤ x.length)
    (hsp : sumProduct x y = .ok s) :
    coefficientCorrelation x y = .error .corrDenominatorZero
      ↔ allEqual x ∨ allEqual y := by
  rw [corr_eq_full x y s h hn hsp]
  have hRx := rawRadicand_list_nonneg x
  have hRy := rawRadicand_list_nonneg y
  by_cases hd : Real.sqrt (rawRadicand (sum x) (sumSquared x) x.length)
      * Real.sqrt (rawRadicand (sum y) (sumSquared y) y.length) = 0
  · rw [if_pos hd]
    constructor
    · intro _
      rcases mul_eq_zero.1 hd with h0 | h0
      · exact Or.inl
          ((rawRadicand_list_eq_zero_iff x).1 ((Real.sqrt_eq_zero hRx).1 h0))
      · exact Or.inr
          ((rawRadicand_list_eq_zero_iff y).1 ((Real.sqrt_eq_zero hRy).1 h0))
    · intro _; rfl
  · rw [if_neg hd]
    constructor
    · intro heq; simp at heq
    · intro hall
      exfalso; apply hd
      rcases hall with hx | hy
      · rw [(rawRadicand_list_eq_zero_iff x).2 hx, Real.sqrt_zero, zero_mul]
      · rw [(rawRadicand_list_eq_zero_iff y).2 hy, Real.sqrt_zero, mul_zero]

/-- Witness for C5: the spec's own example — `x = [1,1,1]` is constant, so
`coefficientCorrelation([1,1,1], [1,2,3])` fails with the zero-denominator
diagnostic. -/
theorem C5_witness :
    coefficientCorrelation [(1 : ℝ), 1, 1] [1, 2, 3]
      = .error .corrDenominatorZero := by
  have ht : sumProductTotal [(1 : ℝ), 1, 1] [1, 2, 3] = 6 := by
    norm_num [sumProductTotal]
  have hsp : sumProduct [(1 : ℝ), 1, 1] [1, 2, 3] = .ok 6 := by
    rw [sumProduct_of_nonneg [(1 : ℝ), 1, 1] [1, 2, 3] rfl (by simp)
      (by rw [ht]; norm_num), ht]
  refine (C5_correlation_degenerate_variance [(1 : ℝ), 1, 1] [1, 2, 3] 6 rfl
    (by norm_num) hsp).2 (Or.inl ?_)
  intro a ha b hb
  simp at ha hb
  rw [ha, hb]

/-- C8 (confirmed): `covariance` is symmetric in its two arguments — for
every pair of sequences on which it succeeds, swapping the arguments yields
the same successful value (and in exact arithmetic this symmetry holds with
equality, not merely within floating tolerance). -/
theorem C8_covariance_symmetric (x y : List ℝ) (v : ℝ)
    (hok : covariance x y = .ok v) : covariance y x = .ok v := by
  obtain ⟨h, hn, hx, hpos, rfl⟩ := covariance_ok_inv x y v hok
  have hylen : 2 ≤ y.length := by omega
  have hy : y ≠ [] := by intro hnil; rw [hnil] at hylen; simp at hylen
  have hpos' : 0 ≤ sumProductTotal y x := by
    rw [sumProductTotal_comm]; exact hpos
  have hsp' : sumProduct y x = .ok (sumProductTotal y x) :=
    sumProduct_of_nonneg y x h.symm hy hpos'
  rw [covariance_of_spOk y x _ h.symm hylen hsp']
  congr 1
  rw [sumProductTotal_comm, mul_comm (sum y) (sum x), ← h]

/-- Witness for C8 at `x = [1,3]`, `y = [3,1]`: `covariance(x, y) = -2`, and
by symmetry `covariance(y, x) = -2` as well. -/
theorem C8_witness :
    covariance [(3 : ℝ), 1] [1, 3] = .ok (-2) := by
  have ht : sumProductTotal [(1 : ℝ), 3] [3, 1] = 6 := by
    norm_num [sumProductTotal]
  have hsp : sumProduct [(1 : ℝ), 3] [3, 1] = .ok 6 := by
    rw [sumProduct_of_nonneg [(1 : ℝ), 3] [3, 1] rfl (by simp)
      (by rw [ht]; norm_num), ht]
  have hok : covariance [(1 : ℝ), 3] [3, 1] = .ok (-2) := by
    rw [covariance_of_spOk [(1 : ℝ), 3] [3, 1] 6 rfl (by norm_num) hsp]
    have hs1 : sum [(1 : ℝ), 3] = 4 := by norm_num [sum]
    have hs2 : sum [(3 : ℝ), 1] = 4 := by norm_num [sum]
    rw [hs1, hs2]
    norm_num
  exact C8_covariance_symmetric [(1 : ℝ), 3] [3, 1] (-2) hok

/-- C9 (confirmed): `coefficientCorrelation` is symmetric in its two
arguments — whenever it succeeds with value `r`, the swapped call succeeds
with the same `r` — and every successful value lies in `[-1, 1]` (here
proved exactly, via the Cauchy–Schwarz inequality, rather than within
floating tolerance). -/
theorem C9_correlation_symmetric_and_bounded (x y : List ℝ) (r : ℝ)
    (hok : coefficientCorrelation x y = .ok r) :
    coefficientCorrelation y x = .ok r ∧ -1 ≤ r ∧ r ≤ 1 := by
  obtain ⟨h, hn, hx, hpos, hd, rfl⟩ := corr_ok_inv x y r hok
  constructor
  · have hylen : 2 ≤ y.length := by omega
    have hy : y ≠ [] := by intro hnil; rw [hnil] at hylen; simp at hylen
    have hpos' : 0 ≤ sumProductTotal y x := by
      rw [sumProductTotal_comm]; exact hpos
    have hsp' : sumProduct y x = .ok (sumProductTotal y x) :=
      sumProduct_of_nonneg y x h.symm hy hpos'
    rw [corr_eq_full y x _ h.symm hylen hsp']
    rw [if_neg (by rw [mul_comm]; exact hd)]
    congr 1
    rw [sumProductTotal_comm,
      mul_comm (Real.sqrt (rawRadicand (sum y) (sumSquared y) y.length))
        (Real.sqrt (rawRadicand (sum x) (sumSquared x) x.length)),
      mul_comm (sum y) (sum x), ← h]
  · have hcs := numerator_sq_le x y h
    have habs := ratio_abs_le
      ((x.length : ℝ) * sumProductTotal x y - sum x * sum y)
      (rawRadicand (sum x) (sumSquared x) x.length)
      (rawRadicand (sum y) (sumSquared y) y.length)
      (rawRadicand_list_nonneg x) (rawRadicand_list_nonneg y) hcs hd
    exact abs_le.1 habs

/-- Witness for C9 at `x = [1,2]`, `y = [2,1]`: the correlation is exactly
`-1`; the swapped call also returns `-1`, which lies in `[-1, 1]`. -/
theorem C9_witness :
    coefficientCorrelation [(2 : ℝ), 1] [1, 2] = .ok (-1)
      ∧ (-1 : ℝ) ≤ -1 ∧ (-1 : ℝ) ≤ 1 := by
  have ht : sumProductTotal [(1 : ℝ), 2] [2, 1] = 4 := by
    norm_num [sumProductTotal]
  have hsp : sumProduct [(1 : ℝ), 2] [2, 1] = .ok 4 := by
    rw [sumProduct_of_nonneg [(1 : ℝ), 2] [2, 1] rfl (by simp)
      (by rw [ht]; norm_num), ht]
  have hs1 : sum [(1 : ℝ), 2] = 3 := by norm_num [sum]
  have hs2 : sum [(2 : ℝ), 1] = 3 := by norm_num [sum]
  have hq1 : sumSquared [(1 : ℝ), 2] = 5 := by norm_num [sumSquared]
  have hq2 : sumSquared [(2 : ℝ), 1] = 5 := by norm_num [sumSquared]
  have hr1 : rawRadicand (sum [(1 : ℝ), 2]) (sumSquared [(1 : ℝ), 2])
      (List.length [(1 : ℝ), 2]) = 1 := by
    rw [hs1, hq1]; norm_num [rawRadicand]
  have hr2 : rawRadicand (sum [(2 : ℝ), 1]) (sumSquared [(2 : ℝ), 1])
      (List.length [(2 : ℝ), 1]) = 1 := by
    rw [hs2, hq2]; norm_num [rawRadicand]
  have hok : coefficientCorrelation [(1 : ℝ), 2] [2, 1] = .ok (-1) := by
    rw [corr_eq_full [(1 : ℝ), 2] [2, 1] 4 rfl (by norm_num) hsp, hr1, hr2,
      Real.sqrt_one]
    rw [if_neg (by norm_num)]
    rw [hs1, hs2]
    norm_num
  exact C9_correlation_symmetric_and_bounded [(1 : ℝ), 2] [2, 1] (-1) hok

end statlib
